import Mathlib

/-! # inbursts: millisecond bucketing of inbound traffic

A shallow embedding of `src/inbursts.c`: the globals of the program become the
fields of `State`, the pcap callback `processor` becomes a step function on that
state, `record_data` appends to the output file, and `pcap_loop` is a left fold
of `processor` over the frames that the capture facility delivers.

Modelling choices:

* `time_t` and `suseconds_t` are signed: `Int`. They are only copied and
  compared, and `tv_usec / 1000` is C division (truncation): `Int.tdiv`.
* the six `uint64_t` counters are `Nat` and every `+=` is taken modulo `2 ^ 64`.
* the output file `fd` is the list of the argument tuples of the `fprintf` calls
  on it; `Line.text` is the text `fprintf` produces for one such tuple and
  `fileText` the content of the file.
* `tv_sec = 0` is what `processor` takes for "no bucket yet" (line 98), and
  `record_data` writes whenever `total_pkts_in > 0`; neither resets anything.
-/

namespace Inbursts

/-! ## Data -/

/-- The modulus of `uint64_t` arithmetic. -/
abbrev U64 : Nat := 18446744073709551616

/-- A `struct timeval`. -/
structure timeval where
  tv_sec : Int
  tv_usec : Int
deriving DecidableEq, Repr

/-- A `struct in_addr`, as its four octets in memory order. -/
structure in_addr where
  b0 : Nat
  b1 : Nat
  b2 : Nat
  b3 : Nat
deriving DecidableEq, Repr

/-- What `processor` reads of one captured frame: `header->ts`, `header->len`
(a `bpf_u_int32`), the value of `IP_HL(ip)` and `ip->ip_dst`.

Modelled from the spec: `inbursts.h`, which defines the macro `IP_HL` and the
header structs, is missing; the spec describes the field as the 4-bit header
length holding a count of 32-bit words, and the frame carries its value. -/
structure Frame where
  ts : timeval
  len : Nat
  ip_hl : Nat
  ip_dst : in_addr
deriving DecidableEq, Repr

/-- One `fprintf(fd, ...)` call of `record_data`: its four arguments
`in_tv.tv_sec`, `in_tv.tv_usec / 1000`, `bytes_in`, `pkts_in`. -/
structure Line where
  sec : Int
  msec : Int
  bytes : Nat
  pkts : Nat
deriving DecidableEq, Repr

/-- The globals of `inbursts.c` that `processor`, `record_data` and `cleanup`
read and write; `fd` holds the lines written so far. -/
structure State where
  in_tv : timeval
  bytes_in : Nat
  pkts_in : Nat
  total_packets : Nat
  total_pkts_in : Nat
  max_bytes_in : Nat
  max_pkts_in : Nat
  fd : List Line
deriving DecidableEq, Repr

/-- The state at program start: statics are zero-initialised, the file is empty. -/
def init : State :=
  { in_tv := { tv_sec := 0, tv_usec := 0 }, bytes_in := 0, pkts_in := 0, total_packets := 0,
    total_pkts_in := 0, max_bytes_in := 0, max_pkts_in := 0, fd := [] }

/-! ## Library functions -/

/-- The function `inet_ntoa`: dotted-decimal text of an address. -/
def inet_ntoa (a : in_addr) : String :=
  Nat.repr a.b0 ++ "." ++ Nat.repr a.b1 ++ "." ++ Nat.repr a.b2 ++ "." ++ Nat.repr a.b3

/-- Comparison of two character sequences as `strcmp` does it: the sign of the
difference at the first position where they differ. -/
def strcmpChars : List Char → List Char → Int
  | [], [] => 0
  | [], _ :: _ => -1
  | _ :: _, [] => 1
  | c :: cs, d :: ds =>
    if c = d then strcmpChars cs ds else if c.toNat < d.toNat then -1 else 1

/-- The function `strcmp`: negative, zero or positive as the first string is
below, equal to or above the second. -/
def strcmp (a b : String) : Int :=
  strcmpChars a.data b.data

/-- Conversion `%ld` of `printf`. -/
def printf_ld (v : Int) : String := Int.repr v

/-- Conversion `%llu` of `printf`. -/
def printf_llu (v : Nat) : String := Nat.repr v

/-- Left padding of a numeral with zeros up to a minimum width. -/
def zeroPad (w : Nat) (digits : String) : String :=
  String.mk (List.replicate (w - digits.length) '0') ++ digits

/-- Conversion `%03d` of `printf`: minimum width 3, zero padded, the sign counts
towards the width. -/
def printf_03d (v : Int) : String :=
  if v < 0 then "-" ++ zeroPad 2 (Nat.repr v.natAbs) else zeroPad 3 (Nat.repr v.natAbs)

/-- The `int` that `%03d` reads when it is handed the `long` value
`in_tv.tv_usec / 1000`: its low 32 bits, two's complement. -/
def toInt32 (v : Int) : Int :=
  (v + 2147483648) % 4294967296 - 2147483648

/-- The text of one line: the format `"%ld%03d,%llu,%llu\n"` of `record_data`. -/
def Line.text (l : Line) : String :=
  printf_ld l.sec ++ printf_03d (toInt32 l.msec) ++ "," ++ printf_llu l.bytes ++ ","
    ++ printf_llu l.pkts ++ "\n"

/-- The content of the output file. -/
def fileText (s : State) : String :=
  String.join (s.fd.map Line.text)

/-! ## The program -/

/-- The function `record_data` (lines 44-51).

Modelled from the spec: the macro `max` comes from the missing `inbursts.h`;
the spec describes the two fields as the maximum observed in any flushed
bucket, so it is the larger of its two arguments. -/
def record_data (s : State) : State :=
  if s.total_pkts_in > 0 then
    { s with
      max_bytes_in := max s.max_bytes_in s.bytes_in
      max_pkts_in := max s.max_pkts_in s.pkts_in
      fd := s.fd ++ [{ sec := s.in_tv.tv_sec, msec := s.in_tv.tv_usec.tdiv 1000,
                       bytes := s.bytes_in, pkts := s.pkts_in }] }
  else s

/-- The test of line 88: the header length field announces fewer than 20 bytes. -/
def malformed (f : Frame) : Bool :=
  decide (f.ip_hl * 4 < 20)

/-- The test of line 93: the destination is the address of the interface. -/
def incoming (ip_addr : String) (f : Frame) : Bool :=
  decide (strcmp ip_addr (inet_ntoa f.ip_dst) = 0)

/-- The test of line 94: the frame falls in the millisecond of the open bucket. -/
def sameMs (in_tv ts : timeval) : Bool :=
  decide (in_tv.tv_sec = ts.tv_sec ∧ in_tv.tv_usec.tdiv 1000 = ts.tv_usec.tdiv 1000)

/-- The function `processor` (lines 81-109), the callback of `pcap_loop`, for
the local address `ip_addr`. -/
def processor (ip_addr : String) (s : State) (f : Frame) : State :=
  if malformed f then s
  else
    let s1 :=
      if incoming ip_addr f then
        let s2 :=
          if sameMs s.in_tv f.ts then
            { s with
              bytes_in := (s.bytes_in + f.len) % U64
              pkts_in := (s.pkts_in + 1) % U64 }
          else
            let s3 := if s.in_tv.tv_sec ≠ 0 then record_data s else s
            { s3 with
              bytes_in := f.len
              pkts_in := 1
              in_tv := { tv_sec := f.ts.tv_sec, tv_usec := f.ts.tv_usec } }
        { s2 with total_pkts_in := (s2.total_pkts_in + 1) % U64 }
      else s
    { s1 with total_packets := (s1.total_packets + 1) % U64 }

/-- The call `pcap_loop(handle, count, processor, NULL)`: the callback runs once
per delivered frame, in order. -/
def pcap_loop (ip_addr : String) (s : State) (frames : List Frame) : State :=
  frames.foldl (processor ip_addr) s

/-- The figures `cleanup` prints on the diagnostic stream. -/
structure Summary where
  total_packets : Nat
  total_pkts_in : Nat
  max_bytes_in : Nat
  max_pkts_in : Nat
deriving DecidableEq, Repr

/-- The function `cleanup` (lines 57-71): the final `record_data`, then the summary printed
from the globals. The process exits afterwards. -/
def cleanup (s : State) : State × Summary :=
  let s1 := record_data s
  (s1, { total_packets := s1.total_packets, total_pkts_in := s1.total_pkts_in,
         max_bytes_in := s1.max_bytes_in, max_pkts_in := s1.max_pkts_in })

/-- A whole run of `main` from line 241 on: the capture loop from the initial
state, then `cleanup`. -/
def run (ip_addr : String) (frames : List Frame) : State × Summary :=
  cleanup (pcap_loop ip_addr init frames)


/-! ## Vocabulary of the specification -/

/-- A frame that `processor` counts as inbound: it passes the header check of
line 88 and the address test of line 93. -/
def counted (ip_addr : String) (f : Frame) : Bool :=
  !malformed f && incoming ip_addr f

/-- The millisecond-truncated timestamp `(tv_sec, tv_usec / 1000)`. -/
def truncated (t : timeval) : Int × Int :=
  (t.tv_sec, t.tv_usec.tdiv 1000)

/-- Order of timestamps: seconds first, then microseconds. -/
def tsLe (x y : timeval) : Prop :=
  x.tv_sec < y.tv_sec ∨ (x.tv_sec = y.tv_sec ∧ x.tv_usec ≤ y.tv_usec)

/-- Order of truncated timestamps: seconds first, then milliseconds. -/
def truncLe (x y : timeval) : Prop :=
  x.tv_sec < y.tv_sec ∨ (x.tv_sec = y.tv_sec ∧ x.tv_usec.tdiv 1000 ≤ y.tv_usec.tdiv 1000)

instance (x y : timeval) : Decidable (tsLe x y) := by unfold tsLe; infer_instance

instance (x y : timeval) : Decidable (truncLe x y) := by unfold truncLe; infer_instance

/-- A timestamp as the capture facility delivers it: microseconds within the second. -/
def validTs (t : timeval) : Prop :=
  0 ≤ t.tv_usec ∧ t.tv_usec < 1000000

instance (t : timeval) : Decidable (validTs t) := by unfold validTs; infer_instance

/-- The epoch-millisecond value of a timestamp: seconds * 1000 + milliseconds. -/
def epochMs (t : timeval) : Int :=
  t.tv_sec * 1000 + t.tv_usec / 1000

/-- The epoch-millisecond value a written line stands for. -/
def Line.epochMs (l : Line) : Int :=
  l.sec * 1000 + l.msec

/-- Two frames share their truncated timestamp. -/
def sameBucket (x y : Frame) : Bool :=
  decide (truncated x.ts = truncated y.ts)

/-- The maximal runs of consecutive inbound frames that share a truncated
timestamp, in arrival order. -/
def buckets (ip_addr : String) (frames : List Frame) : List (List Frame) :=
  List.splitBy sameBucket (frames.filter (counted ip_addr))

/-- The line that stands for one run: the truncated timestamp of its first frame,
the sum of the wire lengths and the number of frames. -/
def bucketLine : List Frame → Line
  | [] => { sec := 0, msec := 0, bytes := 0, pkts := 0 }
  | f :: rest =>
    { sec := f.ts.tv_sec, msec := f.ts.tv_usec.tdiv 1000,
      bytes := ((f :: rest).map Frame.len).sum, pkts := (f :: rest).length }

/-- The largest value of a list of counters, 0 for the empty list. -/
def largest (l : List Nat) : Nat :=
  l.foldr max 0

/-! ## Invariants of the capture loop -/

/-- The maxima are those of the lines written so far. -/
def maxInv (s : State) : Prop :=
  s.max_bytes_in = largest (s.fd.map Line.bytes) ∧
    s.max_pkts_in = largest (s.fd.map Line.pkts)

/-- The bytes and packets counted so far are those of the written lines plus
those of the open bucket, and a bucket is open once a frame has been counted. -/
def sumInv (s : State) (B n : Nat) : Prop :=
  (s.fd.map Line.bytes).sum + s.bytes_in = B ∧
    (s.fd.map Line.pkts).sum + s.pkts_in = n ∧
    s.total_pkts_in = n ∧ (n = 0 → B = 0) ∧ (0 < n → s.in_tv.tv_sec ≠ 0)

/-- The line `record_data` writes for the open bucket of a state. -/
def openLine (s : State) : Line :=
  { sec := s.in_tv.tv_sec, msec := s.in_tv.tv_usec.tdiv 1000,
    bytes := s.bytes_in, pkts := s.pkts_in }

/-- A bucket is open: the lines written are those of the closed runs `gs` (latest
first) and the open bucket holds the run that ends with `ag` and has the earlier
frames `g` (latest first) before it. -/
def openInv (s : State) (ag : Frame) (g : List Frame) (gs : List (List Frame)) : Prop :=
  s.fd = gs.reverse.map bucketLine ∧ 0 < s.total_pkts_in ∧ s.in_tv.tv_sec ≠ 0 ∧
    truncated s.in_tv = truncated ag.ts ∧ openLine s = bucketLine ((ag :: g).reverse)

/-- No frame has been counted yet: nothing is written and `in_tv` is still zero. -/
def closedInv (s : State) : Prop :=
  s.fd = [] ∧ s.total_pkts_in = 0 ∧ s.in_tv.tv_sec = 0

/-- The epoch-millisecond value of the open bucket of a state. -/
def State.startMs (s : State) : Int :=
  s.in_tv.tv_sec * 1000 + s.in_tv.tv_usec.tdiv 1000

/-- The start of the open bucket is a valid timestamp, the written lines carry
strictly increasing epoch-millisecond values and all lie before that start. -/
def orderInv (s : State) : Prop :=
  validTs s.in_tv ∧ (s.fd.map Line.epochMs).Pairwise (fun x y => x < y) ∧
    ∀ x ∈ s.fd, x.epochMs < s.startMs

/-! ## Sample inputs -/

/-- The local address used in the examples. -/
def exAddr : String := "10.0.0.1"

/-- A well-formed frame addressed to `exAddr`. -/
def exIn (sec usec : Int) (len : Nat) : Frame :=
  { ts := { tv_sec := sec, tv_usec := usec }, len := len, ip_hl := 5,
    ip_dst := { b0 := 10, b1 := 0, b2 := 0, b3 := 1 } }

/-- A well-formed frame addressed to another host. -/
def exOut (sec usec : Int) (len : Nat) : Frame :=
  { ts := { tv_sec := sec, tv_usec := usec }, len := len, ip_hl := 5,
    ip_dst := { b0 := 10, b1 := 0, b2 := 0, b3 := 7 } }

/-- A frame to `exAddr` whose header length field is too small. -/
def exBad (sec usec : Int) (len : Nat) : Frame :=
  { ts := { tv_sec := sec, tv_usec := usec }, len := len, ip_hl := 4,
    ip_dst := { b0 := 10, b1 := 0, b2 := 0, b3 := 1 } }

/-- The initial state with `total_packets` at the largest `uint64_t` value. -/
def exFull : State :=
  { init with total_packets := U64 - 1 }

/-! ## Step lemmas -/

theorem strcmpChars_eq_zero (x y : List Char) : strcmpChars x y = 0 ↔ x = y := by
  induction x generalizing y with
  | nil => cases y <;> simp [strcmpChars]
  | cons c cs ih =>
    cases y with
    | nil => simp [strcmpChars]
    | cons d ds =>
      by_cases hcd : c = d
      · simp [strcmpChars, hcd, ih]
      · by_cases hlt : c.toNat < d.toNat <;> simp [strcmpChars, hcd, hlt]

theorem strcmp_eq_zero (a b : String) : strcmp a b = 0 ↔ a = b := by
  unfold strcmp
  rw [strcmpChars_eq_zero]
  constructor
  · intro h
    exact String.ext h
  · intro h
    rw [h]

theorem processor_malformed (a : String) (s : State) (f : Frame) (h : malformed f = true) :
    processor a s f = s := by
  simp [processor, h]

theorem processor_other (a : String) (s : State) (f : Frame) (h : malformed f = false)
    (hi : incoming a f = false) :
    processor a s f = { s with total_packets := (s.total_packets + 1) % U64 } := by
  simp [processor, h, hi]

theorem processor_same (a : String) (s : State) (f : Frame) (h : malformed f = false)
    (hi : incoming a f = true) (hs : sameMs s.in_tv f.ts = true) :
    processor a s f =
      { s with
        bytes_in := (s.bytes_in + f.len) % U64
        pkts_in := (s.pkts_in + 1) % U64
        total_pkts_in := (s.total_pkts_in + 1) % U64
        total_packets := (s.total_packets + 1) % U64 } := by
  simp [processor, h, hi, hs]

theorem processor_roll (a : String) (s : State) (f : Frame) (h : malformed f = false)
    (hi : incoming a f = true) (hs : sameMs s.in_tv f.ts = false) (hz : s.in_tv.tv_sec ≠ 0) :
    processor a s f =
      { record_data s with
        bytes_in := f.len
        pkts_in := 1
        in_tv := { tv_sec := f.ts.tv_sec, tv_usec := f.ts.tv_usec }
        total_pkts_in := ((record_data s).total_pkts_in + 1) % U64
        total_packets := ((record_data s).total_packets + 1) % U64 } := by
  simp [processor, h, hi, hs, hz]

theorem processor_first (a : String) (s : State) (f : Frame) (h : malformed f = false)
    (hi : incoming a f = true) (hs : sameMs s.in_tv f.ts = false) (hz : s.in_tv.tv_sec = 0) :
    processor a s f =
      { s with
        bytes_in := f.len
        pkts_in := 1
        in_tv := { tv_sec := f.ts.tv_sec, tv_usec := f.ts.tv_usec }
        total_pkts_in := (s.total_pkts_in + 1) % U64
        total_packets := (s.total_packets + 1) % U64 } := by
  simp [processor, h, hi, hs, hz]

theorem record_data_pos (s : State) (h : 0 < s.total_pkts_in) :
    record_data s =
      { s with
        max_bytes_in := max s.max_bytes_in s.bytes_in
        max_pkts_in := max s.max_pkts_in s.pkts_in
        fd := s.fd ++ [{ sec := s.in_tv.tv_sec, msec := s.in_tv.tv_usec.tdiv 1000,
                         bytes := s.bytes_in, pkts := s.pkts_in }] } := by
  simp [record_data, h]

theorem record_data_zero (s : State) (h : s.total_pkts_in = 0) : record_data s = s := by
  simp [record_data, h]

theorem pcap_loop_cons (a : String) (s : State) (f : Frame) (l : List Frame) :
    pcap_loop a s (f :: l) = pcap_loop a (processor a s f) l := rfl

theorem pcap_loop_nil (a : String) (s : State) : pcap_loop a s [] = s := rfl

theorem pcap_loop_append (a : String) (s : State) (l₁ l₂ : List Frame) :
    pcap_loop a s (l₁ ++ l₂) = pcap_loop a (pcap_loop a s l₁) l₂ := by
  simp [pcap_loop, List.foldl_append]

/-! ## Frames that are not counted (C5, C6, C8) -/

/-- C6: a frame whose header length field times 4 is below 20 leaves the whole
state as it was, whatever its address, timestamp and length. -/
theorem C6_malformed_frame_is_dropped (ip_addr : String) (s : State) (f : Frame)
    (h : f.ip_hl * 4 < 20) : processor ip_addr s f = s := by
  apply processor_malformed
  simp [malformed, h]

/-- Witness of C6 on a frame with header length field 4. -/
theorem C6_malformed_frame_is_dropped_witness :
    (exBad 5 0 60).ip_hl * 4 < 20 ∧ processor exAddr exFull (exBad 5 0 60) = exFull :=
  ⟨by decide, C6_malformed_frame_is_dropped exAddr exFull (exBad 5 0 60) (by decide)⟩

/-- C5 as stated fails where `total_packets` is `2 ^ 64 - 1`: the frame is
decodable and addressed elsewhere, and the counter wraps to 0. -/
theorem C5_counterexample :
    20 ≤ (exOut 5 0 60).ip_hl * 4 ∧ exAddr ≠ inet_ntoa (exOut 5 0 60).ip_dst ∧
      (processor exAddr exFull (exOut 5 0 60)).total_packets = 0 ∧
      (processor exAddr exFull (exOut 5 0 60)).total_packets ≠ exFull.total_packets + 1 := by
  decide

/-- C5, amended: a decodable frame addressed elsewhere leaves the bucket, the
inbound total, the maxima and the output unchanged and adds 1 to `total_packets`
modulo `2 ^ 64`, which is an increase by exactly 1 below `2 ^ 64 - 1`. -/
theorem C5_other_destination (ip_addr : String) (s : State) (f : Frame)
    (hd : 20 ≤ f.ip_hl * 4) (ha : ip_addr ≠ inet_ntoa f.ip_dst) :
    (processor ip_addr s f).in_tv = s.in_tv ∧
      (processor ip_addr s f).bytes_in = s.bytes_in ∧
      (processor ip_addr s f).pkts_in = s.pkts_in ∧
      (processor ip_addr s f).total_pkts_in = s.total_pkts_in ∧
      (processor ip_addr s f).max_bytes_in = s.max_bytes_in ∧
      (processor ip_addr s f).max_pkts_in = s.max_pkts_in ∧
      (processor ip_addr s f).fd = s.fd ∧
      (processor ip_addr s f).total_packets = (s.total_packets + 1) % U64 ∧
      (s.total_packets + 1 < U64 →
        (processor ip_addr s f).total_packets = s.total_packets + 1) := by
  have hm : malformed f = false := by simp [malformed]; omega
  have hi : incoming ip_addr f = false := by simp [incoming, strcmp_eq_zero, ha]
  rw [processor_other ip_addr s f hm hi]
  refine ⟨rfl, rfl, rfl, rfl, rfl, rfl, rfl, rfl, ?_⟩
  intro hlt
  exact Nat.mod_eq_of_lt hlt

/-- Witness of C5 on a frame to another host, from the initial state. -/
theorem C5_other_destination_witness :
    20 ≤ (exOut 5 0 60).ip_hl * 4 ∧ exAddr ≠ inet_ntoa (exOut 5 0 60).ip_dst ∧
      (processor exAddr init (exOut 5 0 60)).total_packets = init.total_packets + 1 :=
  ⟨by decide, by decide,
    (C5_other_destination exAddr init (exOut 5 0 60) (by decide) (by decide)).2.2.2.2.2.2.2.2
      (by decide)⟩

theorem counted_iff (a : String) (f : Frame) :
    counted a f = true ↔ 20 ≤ f.ip_hl * 4 ∧ a = inet_ntoa f.ip_dst := by
  simp [counted, malformed, incoming, strcmp_eq_zero]

theorem counted_false_iff (a : String) (f : Frame) :
    counted a f = false ↔ f.ip_hl * 4 < 20 ∨ a ≠ inet_ntoa f.ip_dst := by
  rw [← Bool.not_eq_true, counted_iff]
  constructor
  · intro h
    by_cases h1 : f.ip_hl * 4 < 20
    · exact Or.inl h1
    · exact Or.inr (fun h2 => h ⟨by omega, h2⟩)
  · rintro (h | h) ⟨h1, h2⟩
    · omega
    · exact h h2

/-- A frame that is not counted changes at most `total_packets`. -/
theorem processor_uncounted (a : String) (s : State) (f : Frame) (h : counted a f = false) :
    ∃ n, processor a s f = { s with total_packets := n } := by
  by_cases hm : malformed f = true
  · exact ⟨s.total_packets, by rw [processor_malformed a s f hm]⟩
  · have hm2 : malformed f = false := by simpa using hm
    have hi : incoming a f = false := by simpa [counted, hm2] using h
    exact ⟨_, processor_other a s f hm2 hi⟩

theorem pcap_loop_uncounted (a : String) (l : List Frame) :
    ∀ s : State, (∀ f ∈ l, counted a f = false) →
      ∃ n, pcap_loop a s l = { s with total_packets := n } := by
  induction l with
  | nil => intro s _; exact ⟨s.total_packets, rfl⟩
  | cons f l ih =>
    intro s h
    obtain ⟨n, hn⟩ := processor_uncounted a s f (h f (List.mem_cons_self f l))
    obtain ⟨m, hm⟩ := ih { s with total_packets := n }
      (fun g hg => h g (List.mem_cons_of_mem f hg))
    exact ⟨m, by rw [pcap_loop_cons, hn, hm]⟩

/-- C8: when no frame of the run is a decodable inbound frame (each is malformed
or addressed elsewhere), the run and its shutdown flush write no line and the
summary reports 0 for both maxima. -/
theorem C8_no_inbound_no_output (ip_addr : String) (frames : List Frame)
    (h : ∀ f ∈ frames, f.ip_hl * 4 < 20 ∨ ip_addr ≠ inet_ntoa f.ip_dst) :
    (run ip_addr frames).1.fd = [] ∧ fileText (run ip_addr frames).1 = "" ∧
      (run ip_addr frames).2.max_bytes_in = 0 ∧ (run ip_addr frames).2.max_pkts_in = 0 := by
  obtain ⟨n, hn⟩ := pcap_loop_uncounted ip_addr frames init
    (fun f hf => (counted_false_iff ip_addr f).mpr (h f hf))
  have hr : record_data { init with total_packets := n } = { init with total_packets := n } :=
    record_data_zero _ rfl
  simp only [run, cleanup, hn, hr]
  exact ⟨rfl, rfl, rfl, rfl⟩

/-- Witness of C8 on a run of one malformed frame and two frames to another host. -/
theorem C8_no_inbound_no_output_witness :
    (∀ f ∈ [exBad 5 0 60, exOut 5 1000 70, exOut 6 0 80],
        f.ip_hl * 4 < 20 ∨ exAddr ≠ inet_ntoa f.ip_dst) ∧
      (run exAddr [exBad 5 0 60, exOut 5 1000 70, exOut 6 0 80]).1.fd = [] ∧
      (run exAddr [exBad 5 0 60, exOut 5 1000 70, exOut 6 0 80]).2.max_bytes_in = 0 ∧
      (run exAddr [exBad 5 0 60, exOut 5 1000 70, exOut 6 0 80]).2.max_pkts_in = 0 :=
  have h := C8_no_inbound_no_output exAddr [exBad 5 0 60, exOut 5 1000 70, exOut 6 0 80]
    (by decide)
  ⟨by decide, h.1, h.2.2.1, h.2.2.2⟩

/-! ## The maxima of the summary (C9) -/

theorem largest_append_singleton (l : List Nat) (x : Nat) :
    largest (l ++ [x]) = max (largest l) x := by
  induction l with
  | nil => simp [largest]
  | cons y l ih =>
    simp only [largest, List.cons_append, List.foldr_cons] at ih ⊢
    rw [ih, max_assoc]

theorem record_data_maxInv (s : State) (h : maxInv s) : maxInv (record_data s) := by
  by_cases hp : 0 < s.total_pkts_in
  · rw [record_data_pos s hp]
    simp only [maxInv, List.map_append, List.map_cons, List.map_nil, largest_append_singleton]
    rw [← h.1, ← h.2]
    exact ⟨rfl, rfl⟩
  · rw [record_data_zero s (by omega)]
    exact h

theorem processor_maxInv (a : String) (s : State) (f : Frame) (h : maxInv s) :
    maxInv (processor a s f) := by
  by_cases hm : malformed f = true
  · rw [processor_malformed a s f hm]; exact h
  have hm2 : malformed f = false := by simpa using hm
  by_cases hi : incoming a f = true
  · by_cases hs : sameMs s.in_tv f.ts = true
    · rw [processor_same a s f hm2 hi hs]; exact h
    · have hs2 : sameMs s.in_tv f.ts = false := by simpa using hs
      by_cases hz : s.in_tv.tv_sec = 0
      · rw [processor_first a s f hm2 hi hs2 hz]; exact h
      · rw [processor_roll a s f hm2 hi hs2 hz]
        exact record_data_maxInv s h
  · have hi2 : incoming a f = false := by simpa using hi
    rw [processor_other a s f hm2 hi2]; exact h

theorem pcap_loop_maxInv (a : String) (l : List Frame) :
    ∀ s : State, maxInv s → maxInv (pcap_loop a s l) := by
  induction l with
  | nil => intro s h; exact h
  | cons f l ih =>
    intro s h
    rw [pcap_loop_cons]
    exact ih _ (processor_maxInv a s f h)

/-- C9: after any run and its shutdown flush, the maxima reported in the summary
are the largest `bytes_in` and the largest `pkts_in` among the lines written
during the run, the terminal flush included, and 0 when no line was written. -/
theorem C9_summary_maxima (ip_addr : String) (frames : List Frame) :
    (run ip_addr frames).2.max_bytes_in
        = largest ((run ip_addr frames).1.fd.map Line.bytes) ∧
      (run ip_addr frames).2.max_pkts_in
        = largest ((run ip_addr frames).1.fd.map Line.pkts) := by
  have h0 : maxInv init := ⟨rfl, rfl⟩
  exact record_data_maxInv _ (pcap_loop_maxInv ip_addr frames init h0)

/-! ## Conservation of bytes and packets (C1) -/

theorem sameMs_sec {x y : timeval} (h : sameMs x y = true) : x.tv_sec = y.tv_sec := by
  simp only [sameMs, decide_eq_true_eq] at h
  exact h.1

theorem processor_sumInv (a : String) (s : State) (f : Frame) (B n : Nat)
    (hc : counted a f = true) (hsec : f.ts.tv_sec ≠ 0) (h : sumInv s B n)
    (hB : B + f.len < U64) (hn : n + 1 < U64) :
    sumInv (processor a s f) (B + f.len) (n + 1) := by
  have hm : malformed f = false := by
    simp only [counted, Bool.and_eq_true, Bool.not_eq_true'] at hc
    exact hc.1
  have hi : incoming a f = true := by
    simp only [counted, Bool.and_eq_true] at hc
    exact hc.2
  obtain ⟨h1, h2, h3, h4, h5⟩ := h
  by_cases hs : sameMs s.in_tv f.ts = true
  · rw [processor_same a s f hm hi hs]
    have e1 : (s.bytes_in + f.len) % U64 = s.bytes_in + f.len := Nat.mod_eq_of_lt (by omega)
    have e2 : (s.pkts_in + 1) % U64 = s.pkts_in + 1 := Nat.mod_eq_of_lt (by omega)
    have e3 : (s.total_pkts_in + 1) % U64 = s.total_pkts_in + 1 := Nat.mod_eq_of_lt (by omega)
    refine ⟨?_, ?_, ?_, ?_, ?_⟩
    · show (s.fd.map Line.bytes).sum + (s.bytes_in + f.len) % U64 = B + f.len
      omega
    · show (s.fd.map Line.pkts).sum + (s.pkts_in + 1) % U64 = n + 1
      omega
    · show (s.total_pkts_in + 1) % U64 = n + 1
      omega
    · intro h0; omega
    · intro _
      show s.in_tv.tv_sec ≠ 0
      rw [sameMs_sec hs]
      exact hsec
  · have hs2 : sameMs s.in_tv f.ts = false := by simpa using hs
    have e3 : (s.total_pkts_in + 1) % U64 = s.total_pkts_in + 1 := Nat.mod_eq_of_lt (by omega)
    by_cases hz : s.in_tv.tv_sec = 0
    · rw [processor_first a s f hm hi hs2 hz]
      have hn0 : n = 0 := by
        by_contra hne
        exact h5 (Nat.pos_of_ne_zero hne) hz
      have hB0 : B = 0 := h4 hn0
      refine ⟨?_, ?_, ?_, ?_, ?_⟩
      · show (s.fd.map Line.bytes).sum + f.len = B + f.len
        omega
      · show (s.fd.map Line.pkts).sum + 1 = n + 1
        omega
      · show (s.total_pkts_in + 1) % U64 = n + 1
        omega
      · intro h0; omega
      · intro _; exact hsec
    · rw [processor_roll a s f hm hi hs2 hz]
      by_cases hp : 0 < s.total_pkts_in
      · rw [record_data_pos s hp]
        refine ⟨?_, ?_, ?_, ?_, ?_⟩
        · show ((s.fd ++ [_]).map Line.bytes).sum + f.len = B + f.len
          simp only [List.map_append, List.map_cons, List.map_nil, List.sum_append,
            List.sum_cons, List.sum_nil]
          omega
        · show ((s.fd ++ [_]).map Line.pkts).sum + 1 = n + 1
          simp only [List.map_append, List.map_cons, List.map_nil, List.sum_append,
            List.sum_cons, List.sum_nil]
          omega
        · show (s.total_pkts_in + 1) % U64 = n + 1
          omega
        · intro h0; omega
        · intro _; exact hsec
      · have hn0 : n = 0 := by omega
        have hB0 : B = 0 := h4 hn0
        rw [record_data_zero s (by omega)]
        refine ⟨?_, ?_, ?_, ?_, ?_⟩
        · show (s.fd.map Line.bytes).sum + f.len = B + f.len
          omega
        · show (s.fd.map Line.pkts).sum + 1 = n + 1
          omega
        · show (s.total_pkts_in + 1) % U64 = n + 1
          omega
        · intro h0; omega
        · intro _; exact hsec

theorem pcap_loop_sumInv (a : String) (l : List Frame) :
    ∀ (s : State) (B n : Nat), (∀ f ∈ l, counted a f = true ∧ f.ts.tv_sec ≠ 0) →
      sumInv s B n → B + (l.map Frame.len).sum < U64 → n + l.length < U64 →
      sumInv (pcap_loop a s l) (B + (l.map Frame.len).sum) (n + l.length) := by
  induction l with
  | nil => intro s B n _ h _ _; simpa using h
  | cons f l ih =>
    intro s B n hall h hB hn
    simp only [List.map_cons, List.sum_cons, List.length_cons] at hB hn ⊢
    have hf := hall f (List.mem_cons_self f l)
    have hstep := processor_sumInv a s f B n hf.1 hf.2 h (by omega) (by omega)
    have := ih (processor a s f) (B + f.len) (n + 1)
      (fun g hg => hall g (List.mem_cons_of_mem f hg)) hstep (by omega) (by omega)
    rw [pcap_loop_cons]
    have e1 : B + (f.len + (l.map Frame.len).sum) = B + f.len + (l.map Frame.len).sum := by omega
    have e2 : n + (l.length + 1) = n + 1 + l.length := by omega
    rw [e1, e2]
    exact this

theorem record_data_sums (s : State) (B n : Nat) (h : sumInv s B n) :
    ((record_data s).fd.map Line.bytes).sum = B ∧
      ((record_data s).fd.map Line.pkts).sum = n := by
  obtain ⟨h1, h2, h3, h4, _⟩ := h
  by_cases hp : 0 < s.total_pkts_in
  · rw [record_data_pos s hp]
    simp only [List.map_append, List.map_cons, List.map_nil, List.sum_append,
      List.sum_cons, List.sum_nil]
    omega
  · rw [record_data_zero s (by omega)]
    have hn0 : n = 0 := by omega
    have hB0 : B = 0 := h4 hn0
    omega

/-- C1 as stated fails when a bucket lies in epoch second 0: two decodable
inbound frames with non-decreasing truncated timestamps and 150 bytes in all
yield lines that account for one frame of 50 bytes. -/
theorem C1_counterexample :
    (∀ f ∈ [exIn 0 0 100, exIn 1 0 50], 20 ≤ f.ip_hl * 4 ∧ exAddr = inet_ntoa f.ip_dst) ∧
      [exIn 0 0 100, exIn 1 0 50].Pairwise (fun x y => truncLe x.ts y.ts) ∧
      ((run exAddr [exIn 0 0 100, exIn 1 0 50]).1.fd.map Line.bytes).sum = 50 ∧
      ([exIn 0 0 100, exIn 1 0 50].map Frame.len).sum = 150 ∧
      ((run exAddr [exIn 0 0 100, exIn 1 0 50]).1.fd.map Line.pkts).sum = 1 := by
  decide

/-- C1, amended: for decodable inbound frames with non-decreasing truncated
timestamps, none of them in epoch second 0, and with total wire length and
number below `2 ^ 64`, the lines written by the run and its shutdown flush have
`bytes_in` values that sum to the total wire length and `pkts_in` values that
sum to the number of frames. -/
theorem C1_bytes_and_packets_conserved (ip_addr : String) (frames : List Frame)
    (hin : ∀ f ∈ frames, 20 ≤ f.ip_hl * 4 ∧ ip_addr = inet_ntoa f.ip_dst)
    (_hmono : frames.Pairwise (fun x y => truncLe x.ts y.ts))
    (hsec : ∀ f ∈ frames, f.ts.tv_sec ≠ 0)
    (hB : (frames.map Frame.len).sum < U64) (hn : frames.length < U64) :
    ((run ip_addr frames).1.fd.map Line.bytes).sum = (frames.map Frame.len).sum ∧
      ((run ip_addr frames).1.fd.map Line.pkts).sum = frames.length := by
  have h0 : sumInv init 0 0 := ⟨rfl, rfl, rfl, fun _ => rfl, fun h => absurd h (by decide)⟩
  have hl := pcap_loop_sumInv ip_addr frames init 0 0
    (fun f hf => ⟨(counted_iff ip_addr f).mpr (hin f hf), hsec f hf⟩) h0
    (by omega) (by omega)
  simp only [Nat.zero_add] at hl
  exact record_data_sums _ _ _ hl

/-- Witness of C1 on three frames in two milliseconds. -/
theorem C1_bytes_and_packets_conserved_witness :
    ((run exAddr [exIn 5 1000 100, exIn 5 1999 50, exIn 5 2000 200]).1.fd.map Line.bytes).sum
        = ([exIn 5 1000 100, exIn 5 1999 50, exIn 5 2000 200].map Frame.len).sum ∧
      ((run exAddr [exIn 5 1000 100, exIn 5 1999 50, exIn 5 2000 200]).1.fd.map Line.pkts).sum
        = [exIn 5 1000 100, exIn 5 1999 50, exIn 5 2000 200].length :=
  C1_bytes_and_packets_conserved exAddr [exIn 5 1000 100, exIn 5 1999 50, exIn 5 2000 200]
    (by decide) (by decide) (by decide) (by decide) (by decide)

/-! ## The shutdown flush (C7) -/

theorem pcap_loop_total_pkts_in (a : String) (l : List Frame) :
    ∀ s : State, s.total_pkts_in < U64 →
      (pcap_loop a s l).total_pkts_in
        = (s.total_pkts_in + (l.filter (counted a)).length) % U64 := by
  induction l with
  | nil =>
    intro s hs
    simp only [pcap_loop_nil, List.filter_nil, List.length_nil, Nat.add_zero]
    exact (Nat.mod_eq_of_lt hs).symm
  | cons f l ih =>
    intro s hs
    rw [pcap_loop_cons]
    by_cases hc : counted a f = true
    · have hm : malformed f = false := by
        simp only [counted, Bool.and_eq_true, Bool.not_eq_true'] at hc
        exact hc.1
      have hi : incoming a f = true := by
        simp only [counted, Bool.and_eq_true] at hc
        exact hc.2
      have ht : (processor a s f).total_pkts_in = (s.total_pkts_in + 1) % U64 := by
        by_cases hs1 : sameMs s.in_tv f.ts = true
        · rw [processor_same a s f hm hi hs1]
        · have hs2 : sameMs s.in_tv f.ts = false := by simpa using hs1
          by_cases hz : s.in_tv.tv_sec = 0
          · rw [processor_first a s f hm hi hs2 hz]
          · rw [processor_roll a s f hm hi hs2 hz]
            by_cases hp : 0 < s.total_pkts_in
            · rw [record_data_pos s hp]
            · rw [record_data_zero s (by omega)]
      rw [ih _ (by rw [ht]; exact Nat.mod_lt _ (by decide)), ht, List.filter_cons_of_pos hc,
        List.length_cons]
      simp only [U64]
      omega
    · have hc2 : counted a f = false := by simpa using hc
      obtain ⟨n, hn⟩ := processor_uncounted a s f hc2
      have ht : (processor a s f).total_pkts_in = s.total_pkts_in := by rw [hn]
      rw [ih _ (by rw [ht]; exact hs), ht, List.filter_cons_of_neg hc]

/-- C7 as stated fails: after a run of one inbound frame the first shutdown
flush writes one line and a second flush on the resulting state writes that
line again. -/
theorem C7_counterexample :
    (cleanup (pcap_loop exAddr init [exIn 5 0 60])).1.fd
        = [{ sec := 5, msec := 0, bytes := 60, pkts := 1 }] ∧
      (cleanup (cleanup (pcap_loop exAddr init [exIn 5 0 60])).1).1.fd
        = [{ sec := 5, msec := 0, bytes := 60, pkts := 1 },
           { sec := 5, msec := 0, bytes := 60, pkts := 1 }] ∧
      (cleanup (cleanup (pcap_loop exAddr init [exIn 5 0 60])).1).1.fd
        ≠ (cleanup (pcap_loop exAddr init [exIn 5 0 60])).1.fd := by
  decide

/-- C7, amended: after a run that counted at least one inbound frame (fewer than
`2 ^ 64` of them), the shutdown flush writes exactly one line, that of the open
bucket, and a second shutdown flush on the resulting state writes the same line
once more. -/
theorem C7_shutdown_flush (ip_addr : String) (frames : List Frame)
    (hopen : ∃ f ∈ frames, counted ip_addr f = true)
    (hn : (frames.filter (counted ip_addr)).length < U64) :
    (cleanup (pcap_loop ip_addr init frames)).1.fd
        = (pcap_loop ip_addr init frames).fd ++ [openLine (pcap_loop ip_addr init frames)] ∧
      (cleanup (cleanup (pcap_loop ip_addr init frames)).1).1.fd
        = (pcap_loop ip_addr init frames).fd
            ++ [openLine (pcap_loop ip_addr init frames),
                openLine (pcap_loop ip_addr init frames)] := by
  have ht := pcap_loop_total_pkts_in ip_addr frames init (by decide)
  have hpos : 0 < (frames.filter (counted ip_addr)).length := by
    obtain ⟨f, hf, hc⟩ := hopen
    exact List.length_pos_of_mem (List.mem_filter.mpr ⟨hf, hc⟩)
  have hp : 0 < (pcap_loop ip_addr init frames).total_pkts_in := by
    rw [ht]
    show 0 < (0 + (frames.filter (counted ip_addr)).length) % U64
    rw [Nat.zero_add, Nat.mod_eq_of_lt hn]
    exact hpos
  generalize pcap_loop ip_addr init frames = s at hp ⊢
  have h1 : record_data s = { s with
      max_bytes_in := max s.max_bytes_in s.bytes_in
      max_pkts_in := max s.max_pkts_in s.pkts_in
      fd := s.fd ++ [openLine s] } := record_data_pos s hp
  have hp2 : 0 < (record_data s).total_pkts_in := by rw [h1]; exact hp
  refine ⟨?_, ?_⟩
  · show (record_data s).fd = _
    rw [h1]
  · show (record_data (record_data s)).fd = _
    rw [record_data_pos _ hp2, h1]
    simp [openLine]

/-- Witness of C7 on a run of two frames in one millisecond. -/
theorem C7_shutdown_flush_witness :
    (cleanup (pcap_loop exAddr init [exIn 5 0 60, exIn 5 10 40])).1.fd
        = (pcap_loop exAddr init [exIn 5 0 60, exIn 5 10 40]).fd
            ++ [openLine (pcap_loop exAddr init [exIn 5 0 60, exIn 5 10 40])] ∧
      (cleanup (cleanup (pcap_loop exAddr init [exIn 5 0 60, exIn 5 10 40])).1).1.fd
        = (pcap_loop exAddr init [exIn 5 0 60, exIn 5 10 40]).fd
            ++ [openLine (pcap_loop exAddr init [exIn 5 0 60, exIn 5 10 40]),
                openLine (pcap_loop exAddr init [exIn 5 0 60, exIn 5 10 40])] :=
  C7_shutdown_flush exAddr [exIn 5 0 60, exIn 5 10 40] (by decide) (by decide)

/-! ## One line per run of frames (C2) -/

theorem counted_parts {a : String} {f : Frame} (hc : counted a f = true) :
    malformed f = false ∧ incoming a f = true := by
  simp only [counted, Bool.and_eq_true, Bool.not_eq_true'] at hc
  exact hc

theorem bucketLine_snoc (cur : List Frame) (f : Frame) (h : cur ≠ []) :
    bucketLine (cur ++ [f]) =
      { bucketLine cur with
        bytes := (bucketLine cur).bytes + f.len
        pkts := (bucketLine cur).pkts + 1 } := by
  cases cur with
  | nil => exact absurd rfl h
  | cons c cs =>
    simp only [bucketLine, List.cons_append, List.map_cons, List.map_append, List.map_nil,
      List.sum_cons, List.sum_append, List.sum_nil, List.length_cons, List.length_append,
      List.length_nil]
    congr 1
    omega

theorem sameMs_iff_truncated (x y : timeval) :
    sameMs x y = true ↔ truncated x = truncated y := by
  simp [sameMs, truncated, Prod.ext_iff]

theorem pcap_loop_openInv (a : String) (l : List Frame) :
    ∀ (s : State) (ag : Frame) (g : List Frame) (gs : List (List Frame)),
      openInv s ag g gs → (∀ f ∈ l, counted a f = true → f.ts.tv_sec ≠ 0) →
      s.total_pkts_in + (l.filter (counted a)).length < U64 →
      s.pkts_in + (l.filter (counted a)).length < U64 →
      s.bytes_in + ((l.filter (counted a)).map Frame.len).sum < U64 →
      ∃ ag1 g1 gs1, openInv (pcap_loop a s l) ag1 g1 gs1 ∧
        List.splitBy.loop sameBucket (l.filter (counted a)) ag g gs
          = ((ag1 :: g1).reverse :: gs1).reverse := by
  induction l with
  | nil =>
    intro s ag g gs h _ _ _ _
    exact ⟨ag, g, gs, h, by simp [List.splitBy.loop]⟩
  | cons f l ih =>
    intro s ag g gs h hsec ht hp hb
    rw [pcap_loop_cons]
    by_cases hc : counted a f = true
    · obtain ⟨hm, hi⟩ := counted_parts hc
      rw [List.filter_cons_of_pos hc] at ht hp hb ⊢
      simp only [List.length_cons, List.map_cons, List.sum_cons] at ht hp hb
      obtain ⟨h1, h2, h3, h4, h5⟩ := h
      have hfsec : f.ts.tv_sec ≠ 0 := hsec f (List.mem_cons_self f l) hc
      have hsec2 : ∀ x ∈ l, counted a x = true → x.ts.tv_sec ≠ 0 :=
        fun x hx => hsec x (List.mem_cons_of_mem f hx)
      have et : (s.total_pkts_in + 1) % U64 = s.total_pkts_in + 1 :=
        Nat.mod_eq_of_lt (by omega)
      by_cases hs : sameMs s.in_tv f.ts = true
      · have hR : sameBucket ag f = true := by
          have := (sameMs_iff_truncated s.in_tv f.ts).mp hs
          simp only [sameBucket, decide_eq_true_eq]
          rw [← h4, this]
        have eb : (s.bytes_in + f.len) % U64 = s.bytes_in + f.len :=
          Nat.mod_eq_of_lt (by omega)
        have ep : (s.pkts_in + 1) % U64 = s.pkts_in + 1 := Nat.mod_eq_of_lt (by omega)
        have hinv : openInv (processor a s f) f (ag :: g) gs := by
          rw [processor_same a s f hm hi hs]
          refine ⟨h1, ?_, h3, (sameMs_iff_truncated s.in_tv f.ts).mp hs, ?_⟩
          · show 0 < (s.total_pkts_in + 1) % U64
            omega
          · rw [List.reverse_cons, bucketLine_snoc _ _ (by simp), ← h5]
            simp only [openLine, eb, ep]
        have hrec := ih (processor a s f) f (ag :: g) gs hinv hsec2
          (by rw [processor_same a s f hm hi hs]
              show (s.total_pkts_in + 1) % U64 + _ < U64
              omega)
          (by rw [processor_same a s f hm hi hs]
              show (s.pkts_in + 1) % U64 + _ < U64
              omega)
          (by rw [processor_same a s f hm hi hs]
              show (s.bytes_in + f.len) % U64 + _ < U64
              omega)
        obtain ⟨ag1, g1, gs1, hA, hB⟩ := hrec
        exact ⟨ag1, g1, gs1, hA, by simp only [List.splitBy.loop, hR]; exact hB⟩
      · have hs2 : sameMs s.in_tv f.ts = false := by simpa using hs
        have hR : sameBucket ag f = false := by
          have hne : ¬ truncated s.in_tv = truncated f.ts :=
            fun e => hs ((sameMs_iff_truncated s.in_tv f.ts).mpr e)
          simp only [sameBucket, decide_eq_false_iff_not]
          rw [← h4]
          exact hne
        have hstep : processor a s f =
            { s with
              max_bytes_in := max s.max_bytes_in s.bytes_in
              max_pkts_in := max s.max_pkts_in s.pkts_in
              fd := s.fd ++ [openLine s]
              bytes_in := f.len
              pkts_in := 1
              in_tv := { tv_sec := f.ts.tv_sec, tv_usec := f.ts.tv_usec }
              total_pkts_in := (s.total_pkts_in + 1) % U64
              total_packets := (s.total_packets + 1) % U64 } := by
          rw [processor_roll a s f hm hi hs2 h3, record_data_pos s h2]
          rfl
        have hinv : openInv (processor a s f) f [] ((ag :: g).reverse :: gs) := by
          rw [hstep]
          refine ⟨?_, ?_, hfsec, rfl, rfl⟩
          · show s.fd ++ [openLine s] = _
            rw [h1, h5]
            simp
          · show 0 < (s.total_pkts_in + 1) % U64
            omega
        have hrec := ih (processor a s f) f [] ((ag :: g).reverse :: gs) hinv hsec2
          (by rw [hstep]
              show (s.total_pkts_in + 1) % U64 + _ < U64
              omega)
          (by rw [hstep]
              show 1 + _ < U64
              omega)
          (by rw [hstep]
              show f.len + _ < U64
              omega)
        obtain ⟨ag1, g1, gs1, hA, hB⟩ := hrec
        exact ⟨ag1, g1, gs1, hA, by simp only [List.splitBy.loop, hR]; exact hB⟩
    · have hc2 : counted a f = false := by simpa using hc
      obtain ⟨n, hn⟩ := processor_uncounted a s f hc2
      rw [List.filter_cons_of_neg hc] at ht hp hb ⊢
      rw [hn]
      exact ih { s with total_packets := n } ag g gs h
        (fun x hx => hsec x (List.mem_cons_of_mem f hx)) ht hp hb

theorem pcap_loop_closedInv (a : String) (l : List Frame) :
    ∀ s : State, closedInv s → (∀ f ∈ l, counted a f = true → f.ts.tv_sec ≠ 0) →
      (l.filter (counted a)).length < U64 →
      ((l.filter (counted a)).map Frame.len).sum < U64 →
      (closedInv (pcap_loop a s l) ∧ l.filter (counted a) = []) ∨
        ∃ ag1 g1 gs1, openInv (pcap_loop a s l) ag1 g1 gs1 ∧
          List.splitBy sameBucket (l.filter (counted a))
            = ((ag1 :: g1).reverse :: gs1).reverse := by
  induction l with
  | nil =>
    intro s h _ _ _
    exact Or.inl ⟨h, rfl⟩
  | cons f l ih =>
    intro s h hsec hn hb
    rw [pcap_loop_cons]
    by_cases hc : counted a f = true
    · obtain ⟨hm, hi⟩ := counted_parts hc
      rw [List.filter_cons_of_pos hc] at hn hb ⊢
      simp only [List.length_cons, List.map_cons, List.sum_cons] at hn hb
      obtain ⟨h1, h2, h3⟩ := h
      have hfsec : f.ts.tv_sec ≠ 0 := hsec f (List.mem_cons_self f l) hc
      have hs2 : sameMs s.in_tv f.ts = false := by
        rw [← Bool.not_eq_true]
        intro hs
        exact hfsec ((sameMs_sec hs).symm.trans h3)
      have hstep := processor_first a s f hm hi hs2 h3
      have hinv : openInv (processor a s f) f [] [] := by
        rw [hstep]
        refine ⟨h1, ?_, hfsec, rfl, rfl⟩
        show 0 < (s.total_pkts_in + 1) % U64
        rw [h2]
        decide
      have hrec := pcap_loop_openInv a l (processor a s f) f [] [] hinv
        (fun x hx => hsec x (List.mem_cons_of_mem f hx))
        (by rw [hstep]
            show (s.total_pkts_in + 1) % U64 + _ < U64
            rw [h2]
            have e1 : (0 + 1) % U64 = 1 := by decide
            rw [e1]
            omega)
        (by rw [hstep]
            show 1 + _ < U64
            omega)
        (by rw [hstep]
            show f.len + _ < U64
            omega)
      obtain ⟨ag1, g1, gs1, hA, hB⟩ := hrec
      exact Or.inr ⟨ag1, g1, gs1, hA, by simp only [List.splitBy]; exact hB⟩
    · have hc2 : counted a f = false := by simpa using hc
      obtain ⟨n, hn2⟩ := processor_uncounted a s f hc2
      rw [List.filter_cons_of_neg hc] at hn hb ⊢
      rw [hn2]
      exact ih { s with total_packets := n } h
        (fun x hx => hsec x (List.mem_cons_of_mem f hx)) hn hb

/-- C2 as stated fails for a bucket in epoch second 0: two decodable inbound
frames in different milliseconds form two runs, and one line is written. -/
theorem C2_counterexample :
    (∀ f ∈ [exIn 0 5000 10, exIn 1 0 20], 20 ≤ f.ip_hl * 4) ∧
      (buckets exAddr [exIn 0 5000 10, exIn 1 0 20]).length = 2 ∧
      (run exAddr [exIn 0 5000 10, exIn 1 0 20]).1.fd
        = [{ sec := 1, msec := 0, bytes := 20, pkts := 1 }] ∧
      (run exAddr [exIn 0 5000 10, exIn 1 0 20]).1.fd.length
        ≠ (buckets exAddr [exIn 0 5000 10, exIn 1 0 20]).length := by
  decide

/-- C2, amended: for decodable frames whose inbound frames lie outside epoch
second 0 and number fewer than `2 ^ 64` with total wire length below `2 ^ 64`,
the lines written by the run and its shutdown are, in order, one line per
maximal run of consecutive inbound frames sharing a truncated timestamp; before
the shutdown every run but the last, still open one has its line, so that a run
is written when the next inbound frame with a different truncated timestamp
arrives or else at shutdown; the number of lines is the number of runs. -/
theorem C2_one_line_per_bucket (ip_addr : String) (frames : List Frame)
    (_hdec : ∀ f ∈ frames, 20 ≤ f.ip_hl * 4)
    (hsec : ∀ f ∈ frames, counted ip_addr f = true → f.ts.tv_sec ≠ 0)
    (hn : (frames.filter (counted ip_addr)).length < U64)
    (hb : ((frames.filter (counted ip_addr)).map Frame.len).sum < U64) :
    (run ip_addr frames).1.fd = (buckets ip_addr frames).map bucketLine ∧
      (pcap_loop ip_addr init frames).fd
        = (buckets ip_addr frames).dropLast.map bucketLine ∧
      (run ip_addr frames).1.fd.length = (buckets ip_addr frames).length := by
  have h0 : closedInv init := ⟨rfl, rfl, rfl⟩
  have key : (run ip_addr frames).1.fd = (buckets ip_addr frames).map bucketLine ∧
      (pcap_loop ip_addr init frames).fd
        = (buckets ip_addr frames).dropLast.map bucketLine := by
    rcases pcap_loop_closedInv ip_addr frames init h0 hsec hn hb with
      ⟨⟨h1, h2, _⟩, he⟩ | ⟨ag1, g1, gs1, ⟨h1, h2, _, _, h5⟩, hB⟩
    · have hr : (run ip_addr frames).1 = pcap_loop ip_addr init frames :=
        record_data_zero _ h2
      rw [hr, h1]
      simp [buckets, he, List.splitBy]
    · have hr : (run ip_addr frames).1.fd
          = (pcap_loop ip_addr init frames).fd
              ++ [openLine (pcap_loop ip_addr init frames)] := by
        show (record_data (pcap_loop ip_addr init frames)).fd = _
        rw [record_data_pos _ h2]
        rfl
      rw [hr, h1, h5]
      simp only [buckets, hB, List.reverse_cons, List.map_append, List.map_cons,
        List.map_nil, List.dropLast_concat, and_self]
  exact ⟨key.1, key.2, by rw [key.1, List.length_map]⟩

/-- Witness of C2 on a run with a frame to another host in the middle. -/
theorem C2_one_line_per_bucket_witness :
    (run exAddr [exIn 5 1000 100, exOut 5 1500 70, exIn 5 1999 50, exIn 5 2000 200]).1.fd
        = (buckets exAddr
            [exIn 5 1000 100, exOut 5 1500 70, exIn 5 1999 50, exIn 5 2000 200]).map bucketLine ∧
      (pcap_loop exAddr init
          [exIn 5 1000 100, exOut 5 1500 70, exIn 5 1999 50, exIn 5 2000 200]).fd
        = (buckets exAddr
            [exIn 5 1000 100, exOut 5 1500 70, exIn 5 1999 50, exIn 5 2000 200]).dropLast.map
              bucketLine ∧
      (run exAddr [exIn 5 1000 100, exOut 5 1500 70, exIn 5 1999 50, exIn 5 2000 200]).1.fd.length
        = (buckets exAddr
            [exIn 5 1000 100, exOut 5 1500 70, exIn 5 1999 50, exIn 5 2000 200]).length :=
  C2_one_line_per_bucket exAddr
    [exIn 5 1000 100, exOut 5 1500 70, exIn 5 1999 50, exIn 5 2000 200]
    (by decide) (by decide) (by decide) (by decide)

/-! ## Order of the written lines (C10) -/

theorem tdiv_thousand (x : Int) (h : 0 ≤ x) : x.tdiv 1000 = x / 1000 :=
  Int.tdiv_eq_ediv h (by decide)

theorem truncLe_of_tsLe_nonneg {x y : timeval} (hx : 0 ≤ x.tv_usec) (hy : 0 ≤ y.tv_usec)
    (h : tsLe x y) : truncLe x y := by
  unfold truncLe
  unfold tsLe at h
  rw [tdiv_thousand _ hx, tdiv_thousand _ hy]
  omega

theorem truncLe_of_tsLe {x y : timeval} (hx : validTs x) (hy : validTs y) (h : tsLe x y) :
    truncLe x y :=
  truncLe_of_tsLe_nonneg hx.1 hy.1 h

/-- The callback either keeps `in_tv` or sets it to the timestamp of the frame. -/
theorem processor_in_tv (a : String) (s : State) (f : Frame) :
    (processor a s f).in_tv = s.in_tv ∨ (processor a s f).in_tv = f.ts := by
  by_cases hm : malformed f = true
  · rw [processor_malformed a s f hm]; exact Or.inl rfl
  have hm2 : malformed f = false := by simpa using hm
  by_cases hi : incoming a f = true
  · by_cases hs : sameMs s.in_tv f.ts = true
    · rw [processor_same a s f hm2 hi hs]; exact Or.inl rfl
    · have hs2 : sameMs s.in_tv f.ts = false := by simpa using hs
      by_cases hz : s.in_tv.tv_sec = 0
      · rw [processor_first a s f hm2 hi hs2 hz]; exact Or.inr rfl
      · rw [processor_roll a s f hm2 hi hs2 hz]; exact Or.inr rfl
  · have hi2 : incoming a f = false := by simpa using hi
    rw [processor_other a s f hm2 hi2]; exact Or.inl rfl

/-- With non-negative microseconds and non-decreasing timestamps, no step of the
capture loop lowers the truncated start of the open bucket. -/
theorem pcap_loop_start_monotone (a : String) (l : List Frame) :
    ∀ s : State, 0 ≤ s.in_tv.tv_usec → (∀ f ∈ l, 0 ≤ f.ts.tv_usec) →
      l.Pairwise (fun x y => tsLe x.ts y.ts) → (∀ f ∈ l, tsLe s.in_tv f.ts) →
      ∀ (pre : List Frame) (f : Frame) (post : List Frame), l = pre ++ f :: post →
        truncLe (pcap_loop a s pre).in_tv (processor a (pcap_loop a s pre) f).in_tv := by
  induction l with
  | nil =>
    intro s _ _ _ _ pre f post he
    cases pre <;> simp at he
  | cons g l ih =>
    intro s hs hv hp hle
    have hg : 0 ≤ g.ts.tv_usec := hv g (List.mem_cons_self g l)
    have hleg : tsLe s.in_tv g.ts := hle g (List.mem_cons_self g l)
    rw [List.pairwise_cons] at hp
    have hstep : truncLe s.in_tv (processor a s g).in_tv := by
      rcases processor_in_tv a s g with e | e
      · rw [e]; exact Or.inr ⟨rfl, le_refl _⟩
      · rw [e]; exact truncLe_of_tsLe_nonneg hs hg hleg
    have hs2 : 0 ≤ (processor a s g).in_tv.tv_usec := by
      rcases processor_in_tv a s g with e | e
      · rw [e]; exact hs
      · rw [e]; exact hg
    have hle2 : ∀ f ∈ l, tsLe (processor a s g).in_tv f.ts := by
      intro f hf
      rcases processor_in_tv a s g with e | e
      · rw [e]; exact hle f (List.mem_cons_of_mem g hf)
      · rw [e]; exact hp.1 f hf
    have r := ih (processor a s g) hs2 (fun f hf => hv f (List.mem_cons_of_mem g hf)) hp.2 hle2
    intro pre f post he
    cases pre with
    | nil =>
      simp only [List.nil_append, List.cons.injEq] at he
      rw [pcap_loop_nil, ← he.1]
      exact hstep
    | cons p pre =>
      simp only [List.cons_append, List.cons.injEq] at he
      rw [pcap_loop_cons, ← he.1]
      exact r pre f post he.2

theorem startMs_lt_of_roll {x y : timeval} (hx : validTs x) (hy : validTs y) (h : tsLe x y)
    (hs : sameMs x y = false) :
    x.tv_sec * 1000 + x.tv_usec.tdiv 1000 < y.tv_sec * 1000 + y.tv_usec.tdiv 1000 := by
  unfold tsLe at h
  unfold validTs at hx hy
  simp only [sameMs, decide_eq_false_iff_not] at hs
  rw [tdiv_thousand _ hx.1, tdiv_thousand _ hy.1] at hs ⊢
  omega

theorem append_pairwise_lt (l : List Int) (x : Int) (h : l.Pairwise (fun a b => a < b))
    (h2 : ∀ y ∈ l, y < x) : (l ++ [x]).Pairwise (fun a b => a < b) := by
  rw [List.pairwise_append]
  refine ⟨h, List.pairwise_singleton _ _, ?_⟩
  intro a ha b hb
  rw [List.mem_singleton] at hb
  rw [hb]
  exact h2 a ha

theorem record_data_order (s : State) (h : orderInv s) :
    ((record_data s).fd.map Line.epochMs).Pairwise (fun x y => x < y) := by
  obtain ⟨_, h2, h3⟩ := h
  by_cases hp : 0 < s.total_pkts_in
  · rw [record_data_pos s hp]
    show ((s.fd ++ [openLine s]).map Line.epochMs).Pairwise (fun x y => x < y)
    rw [List.map_append]
    apply append_pairwise_lt _ _ h2
    intro y hy
    obtain ⟨x, hx, rfl⟩ := List.mem_map.mp hy
    exact h3 x hx
  · rw [record_data_zero s (by omega)]
    exact h2

theorem processor_orderInv (a : String) (s : State) (f : Frame) (h : orderInv s)
    (hv : validTs f.ts) (hle : tsLe s.in_tv f.ts) :
    orderInv (processor a s f) ∧ truncLe s.in_tv (processor a s f).in_tv ∧
      ((processor a s f).in_tv = s.in_tv ∨ (processor a s f).in_tv = f.ts) := by
  have hrefl : truncLe s.in_tv s.in_tv := Or.inr ⟨rfl, le_refl _⟩
  by_cases hm : malformed f = true
  · rw [processor_malformed a s f hm]; exact ⟨h, hrefl, Or.inl rfl⟩
  have hm2 : malformed f = false := by simpa using hm
  by_cases hi : incoming a f = true
  · by_cases hs : sameMs s.in_tv f.ts = true
    · rw [processor_same a s f hm2 hi hs]; exact ⟨h, hrefl, Or.inl rfl⟩
    · have hs2 : sameMs s.in_tv f.ts = false := by simpa using hs
      obtain ⟨h1, h2, h3⟩ := h
      have hlt := startMs_lt_of_roll h1 hv hle hs2
      have htr := truncLe_of_tsLe h1 hv hle
      by_cases hz : s.in_tv.tv_sec = 0
      · rw [processor_first a s f hm2 hi hs2 hz]
        refine ⟨⟨hv, h2, ?_⟩, htr, Or.inr rfl⟩
        intro x hx
        exact lt_trans (h3 x hx) hlt
      · rw [processor_roll a s f hm2 hi hs2 hz]
        refine ⟨⟨hv, record_data_order s ⟨h1, h2, h3⟩, ?_⟩, htr, Or.inr rfl⟩
        intro x hx
        have hx2 : x ∈ (record_data s).fd := hx
        by_cases hp : 0 < s.total_pkts_in
        · rw [record_data_pos s hp] at hx2
          rcases List.mem_append.mp hx2 with hx3 | hx3
          · exact lt_trans (h3 x hx3) hlt
          · rw [List.mem_singleton] at hx3
            rw [hx3]
            exact hlt
        · rw [record_data_zero s (by omega)] at hx2
          exact lt_trans (h3 x hx2) hlt
  · have hi2 : incoming a f = false := by simpa using hi
    rw [processor_other a s f hm2 hi2]; exact ⟨h, hrefl, Or.inl rfl⟩

theorem pcap_loop_orderInv (a : String) (l : List Frame) :
    ∀ s : State, orderInv s → (∀ f ∈ l, validTs f.ts) →
      l.Pairwise (fun x y => tsLe x.ts y.ts) → (∀ f ∈ l, tsLe s.in_tv f.ts) →
      orderInv (pcap_loop a s l) ∧
        ∀ (pre : List Frame) (f : Frame) (post : List Frame), l = pre ++ f :: post →
          truncLe (pcap_loop a s pre).in_tv (processor a (pcap_loop a s pre) f).in_tv := by
  induction l with
  | nil =>
    intro s h _ _ _
    refine ⟨h, ?_⟩
    intro pre f post he
    cases pre <;> simp at he
  | cons g l ih =>
    intro s h hv hp hle
    obtain ⟨hs1, hs2, hs3⟩ := processor_orderInv a s g h (hv g (List.mem_cons_self g l))
      (hle g (List.mem_cons_self g l))
    rw [List.pairwise_cons] at hp
    have hle2 : ∀ f ∈ l, tsLe (processor a s g).in_tv f.ts := by
      intro f hf
      rcases hs3 with e | e
      · rw [e]; exact hle f (List.mem_cons_of_mem g hf)
      · rw [e]; exact hp.1 f hf
    obtain ⟨r1, r2⟩ := ih (processor a s g) hs1
      (fun f hf => hv f (List.mem_cons_of_mem g hf)) hp.2 hle2
    refine ⟨by rw [pcap_loop_cons]; exact r1, ?_⟩
    intro pre f post he
    cases pre with
    | nil =>
      simp only [List.nil_append, List.cons.injEq] at he
      rw [pcap_loop_nil, ← he.1]
      exact hs2
    | cons p pre =>
      simp only [List.cons_append, List.cons.injEq] at he
      rw [pcap_loop_cons, ← he.1]
      exact r2 pre f post he.2

theorem toDigitsCore_fuel (n : Nat) :
    ∀ (fuel : Nat) (ds : List Char), n < fuel →
      Nat.toDigitsCore 10 fuel n ds = Nat.toDigits 10 n ++ ds := by
  induction n using Nat.strong_induction_on with
  | _ n ih =>
    intro fuel ds hlt
    cases fuel with
    | zero => omega
    | succ k =>
      unfold Nat.toDigits
      simp only [Nat.toDigitsCore]
      by_cases h0 : n / 10 = 0
      · simp [h0]
      · have hlt2 : n / 10 < n := Nat.div_lt_self (by omega) (by decide)
        simp only [h0, if_false]
        rw [ih (n / 10) hlt2 k _ (by omega), ih (n / 10) hlt2 n _ hlt2]
        simp

theorem toDigits_small (n : Nat) (h : n < 10) : Nat.toDigits 10 n = [Nat.digitChar n] := by
  unfold Nat.toDigits
  simp only [Nat.toDigitsCore]
  have h0 : n / 10 = 0 := by omega
  have h1 : n % 10 = n := by omega
  simp [h0, h1]

theorem toDigits_step (n : Nat) (h : 10 ≤ n) :
    Nat.toDigits 10 n = Nat.toDigits 10 (n / 10) ++ [Nat.digitChar (n % 10)] := by
  have h0 : n / 10 ≠ 0 := by omega
  have hlt2 : n / 10 < n := Nat.div_lt_self (by omega) (by decide)
  conv_lhs => unfold Nat.toDigits
  simp only [Nat.toDigitsCore, h0, if_false]
  exact toDigitsCore_fuel (n / 10) n _ hlt2

theorem toDigits_thousands (s m : Nat) (hs : 1 ≤ s) (hm : m < 1000) :
    Nat.toDigits 10 (s * 1000 + m) =
      Nat.toDigits 10 s
        ++ [Nat.digitChar (m / 100), Nat.digitChar (m / 10 % 10), Nat.digitChar (m % 10)] := by
  have e1 : (s * 1000 + m) / 10 = s * 100 + m / 10 := by omega
  have e2 : (s * 1000 + m) % 10 = m % 10 := by omega
  have e3 : (s * 100 + m / 10) / 10 = s * 10 + m / 100 := by omega
  have e4 : (s * 100 + m / 10) % 10 = m / 10 % 10 := by omega
  have e5 : (s * 10 + m / 100) / 10 = s := by omega
  have e6 : (s * 10 + m / 100) % 10 = m / 100 := by omega
  rw [toDigits_step _ (by omega), e1, e2, toDigits_step _ (by omega), e3, e4,
    toDigits_step _ (by omega), e5, e6]
  simp

theorem toDigits_padded (m : Nat) (hm : m < 1000) :
    List.replicate (3 - (Nat.toDigits 10 m).length) '0' ++ Nat.toDigits 10 m =
      [Nat.digitChar (m / 100), Nat.digitChar (m / 10 % 10), Nat.digitChar (m % 10)] := by
  have z : Nat.digitChar 0 = '0' := rfl
  by_cases h1 : m < 10
  · have a1 : m / 100 = 0 := by omega
    have a2 : m / 10 % 10 = 0 := by omega
    have a3 : m % 10 = m := by omega
    rw [toDigits_small m h1, a1, a2, a3, z]
    rfl
  · by_cases h2 : m < 100
    · have a1 : m / 100 = 0 := by omega
      have a2 : m / 10 % 10 = m / 10 := by omega
      rw [toDigits_step m (by omega), toDigits_small (m / 10) (by omega), a1, a2, z]
      rfl
    · have a1 : m / 10 / 10 = m / 100 := by omega
      rw [toDigits_step m (by omega), toDigits_step (m / 10) (by omega),
        toDigits_small (m / 10 / 10) (by omega), a1]
      rfl

/-- The decimal numeral of `s * 1000 + m` is the numeral of `s` followed by `m`
padded to three digits, when `s` is positive and `m` is below 1000. -/
theorem repr_thousands (s m : Nat) (hs : 1 ≤ s) (hm : m < 1000) :
    Nat.repr s ++ zeroPad 3 (Nat.repr m) = Nat.repr (s * 1000 + m) := by
  unfold zeroPad Nat.repr
  rw [toDigits_thousands s m hs hm, ← toDigits_padded m hm]
  rfl

theorem toInt32_small (v : Int) (h0 : 0 ≤ v) (h1 : v < 1000) : toInt32 v = v := by
  unfold toInt32
  omega

theorem line_text (l : Line) (hs : 1 ≤ l.sec) (h0 : 0 ≤ l.msec) (h1 : l.msec < 1000) :
    l.text = Nat.repr (l.sec * 1000 + l.msec).toNat ++ "," ++ Nat.repr l.bytes ++ ","
      ++ Nat.repr l.pkts ++ "\n" := by
  obtain ⟨sec, msec, bytes, pkts⟩ := l
  simp only at hs h0 h1
  obtain ⟨s, rfl⟩ := Int.eq_ofNat_of_zero_le (by omega : 0 ≤ sec)
  obtain ⟨m, rfl⟩ := Int.eq_ofNat_of_zero_le h0
  have hs2 : 1 ≤ s := by omega
  have hm2 : m < 1000 := by omega
  have e1 : ((s : Int) * 1000 + (m : Int)).toNat = s * 1000 + m := by omega
  have e2 : printf_03d (m : Int) = zeroPad 3 (Nat.repr m) := by
    unfold printf_03d
    have : ¬ ((m : Int) < 0) := by omega
    simp [this]
  have e3 : printf_ld (s : Int) = Nat.repr s := rfl
  simp only [Line.text, toInt32_small (m : Int) h0 h1, e1, e2, e3, printf_llu,
    ← repr_thousands s m hs2 hm2]

theorem join_snoc (l : List String) (x : String) : String.join (l ++ [x]) = String.join l ++ x := by
  simp [String.join, List.foldl_append]

theorem fileText_snoc (s : State) (l : Line) :
    fileText { s with fd := s.fd ++ [l] } = fileText s ++ l.text := by
  simp only [fileText, List.map_append, List.map_cons, List.map_nil, join_snoc]

/-- C4 as stated fails for a bucket in epoch second 0: the run of one inbound
frame at 5 ms after the epoch ends with a valid `tv_usec`, and the shutdown
flush writes `0005,60,1` where the decimal numeral of 0 * 1000 + 5 gives
`5,60,1`. -/
theorem C4_counterexample :
    0 < (pcap_loop exAddr init [exIn 0 5000 60]).total_pkts_in ∧
      validTs (pcap_loop exAddr init [exIn 0 5000 60]).in_tv ∧
      fileText (record_data (pcap_loop exAddr init [exIn 0 5000 60])) = "0005,60,1\n" ∧
      fileText (pcap_loop exAddr init [exIn 0 5000 60])
          ++ (Nat.repr ((pcap_loop exAddr init [exIn 0 5000 60]).in_tv.tv_sec * 1000
                + (pcap_loop exAddr init [exIn 0 5000 60]).in_tv.tv_usec / 1000).toNat
              ++ "," ++ Nat.repr (pcap_loop exAddr init [exIn 0 5000 60]).bytes_in
              ++ "," ++ Nat.repr (pcap_loop exAddr init [exIn 0 5000 60]).pkts_in ++ "\n")
        = "5,60,1\n" ∧
      fileText (record_data (pcap_loop exAddr init [exIn 0 5000 60]))
        ≠ fileText (pcap_loop exAddr init [exIn 0 5000 60])
          ++ (Nat.repr ((pcap_loop exAddr init [exIn 0 5000 60]).in_tv.tv_sec * 1000
                + (pcap_loop exAddr init [exIn 0 5000 60]).in_tv.tv_usec / 1000).toNat
              ++ "," ++ Nat.repr (pcap_loop exAddr init [exIn 0 5000 60]).bytes_in
              ++ "," ++ Nat.repr (pcap_loop exAddr init [exIn 0 5000 60]).pkts_in ++ "\n") := by
  decide

/-- C4, amended: when `record_data` emits a bucket (`total_pkts_in > 0`) whose
start has `tv_sec >= 1` and `0 <= tv_usec < 1000000`, it appends to the file
exactly the decimal numeral of `tv_sec * 1000 + tv_usec / 1000`, a comma, the
decimal `bytes_in`, a comma, the decimal `pkts_in` and a newline. -/
theorem C4_line_format (s : State) (hp : 0 < s.total_pkts_in) (hsec : 1 ≤ s.in_tv.tv_sec)
    (hus : validTs s.in_tv) :
    fileText (record_data s) =
      fileText s
        ++ (Nat.repr (s.in_tv.tv_sec * 1000 + s.in_tv.tv_usec / 1000).toNat ++ ","
            ++ Nat.repr s.bytes_in ++ "," ++ Nat.repr s.pkts_in ++ "\n") := by
  obtain ⟨h0, h1⟩ := hus
  have ht := tdiv_thousand _ h0
  have hl := line_text (openLine s) hsec
    (by show 0 ≤ s.in_tv.tv_usec.tdiv 1000; rw [ht]; omega)
    (by show s.in_tv.tv_usec.tdiv 1000 < 1000; rw [ht]; omega)
  have hfd : fileText (record_data s) = fileText s ++ (openLine s).text := by
    rw [record_data_pos s hp]
    simp only [fileText, List.map_append, List.map_cons, List.map_nil, join_snoc]
    rfl
  rw [hfd, hl]
  simp only [openLine, ht]

/-- Witness of C4 on the bucket left open by one frame at second 1700000000. -/
theorem C4_line_format_witness :
    fileText (record_data (pcap_loop exAddr init [exIn 1700000000 123456 60])) =
      fileText (pcap_loop exAddr init [exIn 1700000000 123456 60])
        ++ (Nat.repr ((pcap_loop exAddr init [exIn 1700000000 123456 60]).in_tv.tv_sec * 1000
              + (pcap_loop exAddr init [exIn 1700000000 123456 60]).in_tv.tv_usec / 1000).toNat
            ++ "," ++ Nat.repr (pcap_loop exAddr init [exIn 1700000000 123456 60]).bytes_in
            ++ "," ++ Nat.repr (pcap_loop exAddr init [exIn 1700000000 123456 60]).pkts_in
            ++ "\n") :=
  C4_line_format (pcap_loop exAddr init [exIn 1700000000 123456 60]) (by decide) (by decide)
    (by decide)

/-! ## The worked example of the specification (C3) -/

/-- C3 as stated fails at T = 0: the first two frames fall into the zero
`in_tv` of the initial state, the bucket is dropped when the third frame
arrives, and the only line written is `0001,200,1`. -/
theorem C3_counterexample :
    epochMs (exIn 0 0 100).ts = 0 ∧ epochMs (exIn 0 500 50).ts = 0 ∧
      epochMs (exIn 0 1000 200).ts = 0 + 1 ∧
      fileText (run exAddr [exIn 0 0 100, exIn 0 500 50, exIn 0 1000 200]).1 = "0001,200,1\n" ∧
      fileText (run exAddr [exIn 0 0 100, exIn 0 500 50, exIn 0 1000 200]).1
        ≠ Nat.repr 0 ++ ",150,2\n" ++ Nat.repr (0 + 1) ++ ",200,1\n" := by
  decide

/-- C3, amended: for every epoch-millisecond value T of at least 1000 (so outside
epoch second 0), three decodable inbound frames with valid timestamps truncated
to T, T, T + 1 and wire lengths 100, 50, 200, processed from the initial state
and followed by the shutdown flush, produce exactly the text `T,150,2` newline
`T+1,200,1` newline. -/
theorem C3_round_trip (ip_addr : String) (T : Nat) (f1 f2 f3 : Frame)
    (hc1 : 20 ≤ f1.ip_hl * 4 ∧ ip_addr = inet_ntoa f1.ip_dst)
    (hc2 : 20 ≤ f2.ip_hl * 4 ∧ ip_addr = inet_ntoa f2.ip_dst)
    (hc3 : 20 ≤ f3.ip_hl * 4 ∧ ip_addr = inet_ntoa f3.ip_dst)
    (hv1 : validTs f1.ts) (hv2 : validTs f2.ts) (hv3 : validTs f3.ts)
    (ht1 : epochMs f1.ts = T) (ht2 : epochMs f2.ts = T) (ht3 : epochMs f3.ts = T + 1)
    (hl1 : f1.len = 100) (hl2 : f2.len = 50) (hl3 : f3.len = 200)
    (hT : 1000 ≤ T) :
    fileText (run ip_addr [f1, f2, f3]).1
      = Nat.repr T ++ ",150,2\n" ++ Nat.repr (T + 1) ++ ",200,1\n" := by
  obtain ⟨hm1, hi1⟩ := counted_parts ((counted_iff ip_addr f1).mpr hc1)
  obtain ⟨hm2, hi2⟩ := counted_parts ((counted_iff ip_addr f2).mpr hc2)
  obtain ⟨hm3, hi3⟩ := counted_parts ((counted_iff ip_addr f3).mpr hc3)
  unfold validTs at hv1 hv2 hv3
  unfold epochMs at ht1 ht2 ht3
  have d1 := tdiv_thousand _ hv1.1
  have d2 := tdiv_thousand _ hv2.1
  have d3 := tdiv_thousand _ hv3.1
  have hsec1 : 1 ≤ f1.ts.tv_sec := by omega
  have hsec3 : 1 ≤ f3.ts.tv_sec := by omega
  -- first frame: the bucket opens
  have s1 : sameMs init.in_tv f1.ts = false := by
    rw [← Bool.not_eq_true]
    intro h
    have := sameMs_sec h
    have e0 : init.in_tv.tv_sec = 0 := rfl
    omega
  have p1 := processor_first ip_addr init f1 hm1 hi1 s1 rfl
  -- second frame: same millisecond
  have s2 : sameMs (processor ip_addr init f1).in_tv f2.ts = true := by
    rw [p1]
    simp only [sameMs, decide_eq_true_eq]
    rw [d1, d2]
    omega
  have p2 := processor_same ip_addr _ f2 hm2 hi2 s2
  -- third frame: the next millisecond
  have s3 : sameMs (processor ip_addr (processor ip_addr init f1) f2).in_tv f3.ts = false := by
    rw [p2, p1]
    simp only [sameMs, decide_eq_false_iff_not]
    rw [d1, d3]
    omega
  have z3 : (processor ip_addr (processor ip_addr init f1) f2).in_tv.tv_sec ≠ 0 := by
    rw [p2, p1]
    show f1.ts.tv_sec ≠ 0
    omega
  have p3 := processor_roll ip_addr _ f3 hm3 hi3 s3 z3
  have hfd : (run ip_addr [f1, f2, f3]).1.fd =
      [{ sec := f1.ts.tv_sec, msec := f1.ts.tv_usec.tdiv 1000, bytes := 150, pkts := 2 },
       { sec := f3.ts.tv_sec, msec := f3.ts.tv_usec.tdiv 1000, bytes := 200, pkts := 1 }] := by
    show (record_data (processor ip_addr (processor ip_addr (processor ip_addr init f1) f2) f3)).fd
      = _
    rw [p3, p2, p1]
    simp [record_data, init, hl1, hl2, hl3, U64]
  have t1 := line_text
    { sec := f1.ts.tv_sec, msec := f1.ts.tv_usec.tdiv 1000, bytes := 150, pkts := 2 }
    hsec1 (by show 0 ≤ f1.ts.tv_usec.tdiv 1000; rw [d1]; omega)
    (by show f1.ts.tv_usec.tdiv 1000 < 1000; rw [d1]; omega)
  have t3 := line_text
    { sec := f3.ts.tv_sec, msec := f3.ts.tv_usec.tdiv 1000, bytes := 200, pkts := 1 }
    hsec3 (by show 0 ≤ f3.ts.tv_usec.tdiv 1000; rw [d3]; omega)
    (by show f3.ts.tv_usec.tdiv 1000 < 1000; rw [d3]; omega)
  have n1 : (f1.ts.tv_sec * 1000 + f1.ts.tv_usec.tdiv 1000).toNat = T := by
    rw [d1]; omega
  have n3 : (f3.ts.tv_sec * 1000 + f3.ts.tv_usec.tdiv 1000).toNat = T + 1 := by
    rw [d3]; omega
  simp only [n1, n3] at t1 t3
  have r150 : Nat.repr 150 = "150" := by decide
  have r200 : Nat.repr 200 = "200" := by decide
  have r2 : Nat.repr 2 = "2" := by decide
  have r1 : Nat.repr 1 = "1" := by decide
  simp only [fileText, hfd, List.map_cons, List.map_nil, t1, t3, r150, r200, r2, r1]
  simp [String.join, String.append_assoc]

/-- Witness of C3 at T = 1700000000123. -/
theorem C3_round_trip_witness :
    fileText (run exAddr [exIn 1700000000 123000 100, exIn 1700000000 123999 50,
        exIn 1700000000 124000 200]).1
      = Nat.repr 1700000000123 ++ ",150,2\n" ++ Nat.repr (1700000000123 + 1) ++ ",200,1\n" :=
  C3_round_trip exAddr 1700000000123 (exIn 1700000000 123000 100)
    (exIn 1700000000 123999 50) (exIn 1700000000 124000 200)
    (by decide) (by decide) (by decide) (by decide) (by decide) (by decide)
    (by decide) (by decide) (by decide) (by decide) (by decide) (by decide) (by decide)

end Inbursts
